import Mathlib

/-!
Verification of `scripts/generate-plugin-docs.py`.

The script reads a marketplace catalog, fetches a companion `plugin.json`
manifest and GitHub repository info for each plugin over HTTPS, merges the
three metadata sources, renders one markdown page per plugin plus an index
page, and validates the generated markdown.

This file gives a shallow embedding of that script:

* JSON values are modelled by the inductive `Json`; Python dictionaries of
  JSON values are association lists (`Dict`) with Python dict semantics
  (lookup of the first matching key, in-place update keeping key position,
  append of fresh keys).
* Python string primitives (`in`, `startswith`, `len`, slicing, `join`)
  are modelled over `String.data` (lists of characters = code points,
  matching Python's code-point based string semantics).
* Network I/O is abstracted by an oracle `net : String → Option Json`
  standing for "perform the request and parse the body; any error gives
  `None`" — exactly the error handling of `fetch_json_from_url`.
* The typed renderers consume a `ProcessedPlugin` structure mirroring the
  `ProcessedPlugin` TypedDict declared in the source.
* For the frame/no-mutation property of `merge_metadata` a second,
  imperative embedding with an explicit heap of dictionary cells is given
  (`Heap`, `mergeMetadataImp`): Python dicts are mutable reference cells
  there, and mutation is an explicit heap write.
-/

/-- A JSON value as produced by `json.loads` in the script.  Numbers are
modelled as integers; no claim depends on float payloads. -/
inductive Json where
  | null
  | bool (b : Bool)
  | num (n : Int)
  | str (s : String)
  | arr (l : List Json)
  | obj (l : List (String × Json))

/-- A Python dictionary holding JSON values: an association list whose
order is the dict's insertion order. -/
abbrev Dict := List (String × Json)

/-- Python truthiness (`if value:`) of a JSON value: `None`, `False`, `0`,
`""`, `[]` and `{}` are falsy, everything else is truthy. -/
def truthy : Json → Bool
  | .null => false
  | .bool b => b
  | .num n => n != 0
  | .str s => !s.data.isEmpty
  | .arr l => !l.isEmpty
  | .obj l => !l.isEmpty

/-- `d.get(k)` on a Python dict: the value of the first (unique) matching
key, or `None` when absent. -/
def dictGet (d : Dict) (k : String) : Option Json :=
  (d.find? (fun p => p.1 == k)).map (fun p => p.2)

/-- `d.get(k, default)` on a Python dict. -/
def dictGetD (d : Dict) (k : String) (v : Json) : Json :=
  (dictGet d k).getD v

/-- `k in d` on a Python dict. -/
def dictContains (d : Dict) (k : String) : Bool :=
  (dictGet d k).isSome

/-- `d[k] = v` on a Python dict: update the value in place when the key is
present (keeping its position), append a fresh key otherwise. -/
def dictSet : Dict → String → Json → Dict
  | [], k, v => [(k, v)]
  | p :: t, k, v => if p.1 == k then (k, v) :: t else p :: dictSet t k v

/-- `{**a, **b}` on Python dicts: start from `a`, then write each entry of
`b` in order. -/
def dictMerge (a b : Dict) : Dict :=
  b.foldl (fun acc p => dictSet acc p.1 p.2) a

/-- The keys of a dict produced by `json.loads` are pairwise distinct. -/
def keysNodup (d : Dict) : Prop := (d.map Prod.fst).Nodup

instance (d : Dict) : Decidable (keysNodup d) := by
  unfold keysNodup; infer_instance

/-! ### Python string primitives -/

/-- Python `pre.isprefix`-style check used below: `l₁` is a prefix of
`l₂`, as an executable boolean on character lists. -/
def prefixOfB : List Char → List Char → Bool
  | [], _ => true
  | _ :: _, [] => false
  | a :: as, b :: bs => a == b && prefixOfB as bs

/-- Python `sub in s` on character lists: some suffix of `s` starts with
`sub`. -/
def containsSub : List Char → List Char → Bool
  | [], pat => pat.isEmpty
  | c :: t, pat => prefixOfB pat (c :: t) || containsSub t pat

/-- Python `sub in s` for strings (substring containment). -/
def pyContains (s sub : String) : Bool := containsSub s.data sub.data

/-- Python `s.startswith(pre)`. -/
def pyStartsWith (s pre : String) : Bool := prefixOfB pre.data s.data

/-- Python `len(s)`: the number of code points. -/
def pyLen (s : String) : Nat := s.data.length

/-- Python `s[:n]`: the first `n` code points. -/
def pySlice (s : String) (n : Nat) : String := ⟨s.data.take n⟩

/-- Python `sep.join(l)`. -/
def pyJoin (sep : String) : List String → String
  | [] => ""
  | [x] => x
  | x :: y :: xs => x ++ sep ++ pyJoin sep (y :: xs)

/-- Python `s.lower()` (ASCII case folding suffices here: it is only used
for the case-insensitive "chrome"/"browser" checks). -/
def pyLower (s : String) : String := ⟨s.data.map Char.toLower⟩

/-- Python `sorted(l)` on strings: ascending lexicographic order on code
points. -/
def pyStrLeB : List Char → List Char → Bool
  | [], _ => true
  | _ :: _, [] => false
  | c :: cs, d :: ds =>
    if c.val < d.val then true
    else if d.val < c.val then false
    else pyStrLeB cs ds

/-- Python `sorted` for a list of strings. -/
def pySorted (l : List String) : List String :=
  l.insertionSort (fun a b => pyStrLeB a.data b.data = true)

/-! ### Fetcher (`validate_url_scheme`, `fetch_json_from_url`) -/

/-- Source: `validate_url_scheme` — only `https://` URLs are safe. -/
def validate_url_scheme (url : String) : Bool :=
  pyStartsWith url "https://"

/-- Source: `fetch_json_from_url`.  The whole `urllib` request (including
every error path, each of which returns `None`) is abstracted by the
oracle `net`; the scheme check happens before the oracle is consulted. -/
def fetch_json_from_url (net : String → Option Json) (url : String) :
    Option Json :=
  if validate_url_scheme url then net url else none

/-! ### Merger (`_merge_author_info`, `_apply_plugin_json_fields`,
`_apply_repo_info`, `merge_metadata`)

The merge functions work on Python dicts; a `TypeError` raised by
`{**existing, **new_author}` when `new_author` is a truthy non-mapping,
non-string value is modelled by `Except.error`. -/

/-- Source: `_merge_author_info`.  A string author is first coerced to a
`{"name": ...}` dict; when the existing author is a dict the two are
merged with `{**existing, **new_author}` (new keys win), otherwise the new
author value is returned as is.  `{**e, **n}` with a non-dict `n` raises
`TypeError`. -/
def merge_author_info (existing : Option Json) (new_author : Json) :
    Except String Json :=
  let na := match new_author with
    | .str s => Json.obj [("name", Json.str s)]
    | x => x
  match existing with
  | some (.obj e) =>
    match na with
    | .obj n => .ok (.obj (dictMerge e n))
    | _ => .error "TypeError"
  | _ => .ok na

/-- The five fields for which `plugin.json` takes precedence. -/
def overridableFields : List String :=
  ["version", "description", "license", "keywords", "homepage"]

/-- The five component fields copied wholesale from `plugin.json`. -/
def componentFields : List String :=
  ["commands", "agents", "skills", "hooks", "mcpServers"]

/-- One step of the overridable-field loop
(`if value := plugin_json.get(field): merged[field] = value`). -/
def ovStep (plugin_json acc : Dict) (field : String) : Dict :=
  match dictGet plugin_json field with
  | some value => if truthy value then dictSet acc field value else acc
  | none => acc

/-- First loop of `_apply_plugin_json_fields`: overlay each overridable
field whose manifest value is truthy. -/
def applyOverridable (merged plugin_json : Dict) : Dict :=
  overridableFields.foldl (ovStep plugin_json) merged

/-- Author part of `_apply_plugin_json_fields`
(`if author_data := plugin_json.get("author"):`). -/
def applyAuthor (merged plugin_json : Dict) : Except String Dict :=
  match dictGet plugin_json "author" with
  | some author_data =>
    if truthy author_data then
      match merge_author_info (dictGet merged "author") author_data with
      | .ok ma => .ok (dictSet merged "author" ma)
      | .error e => .error e
    else .ok merged
  | none => .ok merged

/-- One step of the component-copy loop
(`if component in plugin_json: merged[component] = plugin_json[component]`). -/
def compStep (plugin_json acc : Dict) (component : String) : Dict :=
  match dictGet plugin_json component with
  | some v => dictSet acc component v
  | none => acc

/-- Component-copy loop of `_apply_plugin_json_fields`. -/
def applyComponents (merged plugin_json : Dict) : Dict :=
  componentFields.foldl (compStep plugin_json) merged

/-- Source: `_apply_plugin_json_fields` (the three steps in source
order). -/
def apply_plugin_json_fields (merged plugin_json : Dict) :
    Except String Dict :=
  match applyAuthor (applyOverridable merged plugin_json) plugin_json with
  | .ok m2 => .ok (applyComponents m2 plugin_json)
  | .error e => .error e

/-- Source: `_apply_repo_info` — unconditionally set the four GitHub
fields, with defaults for missing keys. -/
def apply_repo_info (merged repo_info : Dict) : Dict :=
  dictSet
    (dictSet
      (dictSet
        (dictSet merged "stars" (dictGetD repo_info "stargazers_count" (.num 0)))
        "updated_at" (dictGetD repo_info "updated_at" (.str "")))
      "topics" (dictGetD repo_info "topics" (.arr [])))
    "default_branch" (dictGetD repo_info "default_branch" (.str "main"))

/-- `if plugin_json: _apply_plugin_json_fields(merged, plugin_json)` —
`None` and the empty dict are falsy and skip the manifest overlay. -/
def applyPluginBranch (merged : Dict) (plugin_json : Option Dict) :
    Except String Dict :=
  match plugin_json with
  | some pj =>
    if !pj.isEmpty then apply_plugin_json_fields merged pj else .ok merged
  | none => .ok merged

/-- `if repo_info: _apply_repo_info(merged, repo_info)` — `None` and the
empty dict are falsy and skip the repo-info overlay. -/
def applyRepoBranch (merged : Dict) (repo_info : Option Dict) : Dict :=
  match repo_info with
  | some ri => if !ri.isEmpty then apply_repo_info merged ri else merged
  | none => merged

/-- Source: `merge_metadata`.  Starts from a shallow copy of the entry
(`dict(marketplace_entry)`; pure values need no copy here — the
copy-vs-alias distinction is verified on the imperative model below), then
applies the manifest when truthy (`if plugin_json:`) and the repo info
when truthy (`if repo_info:`). -/
def merge_metadata (marketplace_entry : Dict)
    (plugin_json repo_info : Option Dict) : Except String Dict :=
  match applyPluginBranch marketplace_entry plugin_json with
  | .ok m => .ok (applyRepoBranch m repo_info)
  | .error e => .error e

/-! ### Typed plugin records and the renderers

The source declares `AuthorInfo`, `SourceInfo` and `ProcessedPlugin` as
TypedDicts with `total=False`; the renderers consume plugins through these
types.  They are mirrored here as structures of `Option` fields. -/

/-- Source: `AuthorInfo` TypedDict. -/
structure AuthorInfo where
  name : Option String := none
  email : Option String := none
  url : Option String := none

/-- The `author` field has declared type `AuthorInfo | str`. -/
inductive AuthorVal where
  | info (a : AuthorInfo)
  | str (s : String)

/-- Source: `SourceInfo` TypedDict. -/
structure SourceInfo where
  source : Option String := none
  repo : Option String := none
  url : Option String := none

/-- The `source` field has declared type `SourceInfo | str`. -/
inductive SourceVal where
  | info (s : SourceInfo)
  | str (s : String)

/-- Component fields have declared type `list[str] | str`. -/
inductive CommandsVal where
  | list (l : List String)
  | str (s : String)

/-- Source: `ProcessedPlugin` TypedDict (`total=False`: every field is
optional; a `none` field is an absent key). -/
structure ProcessedPlugin where
  name : Option String := none
  description : Option String := none
  version : Option String := none
  author : Option AuthorVal := none
  homepage : Option String := none
  repository : Option String := none
  license : Option String := none
  keywords : Option (List String) := none
  category : Option String := none
  tags : Option (List String) := none
  source : Option SourceVal := none
  commands : Option CommandsVal := none
  agents : Option CommandsVal := none
  skills : Option CommandsVal := none
  hooks : Option String := none
  mcpServers : Option String := none
  stars : Option Int := none
  updated_at : Option String := none
  topics : Option (List String) := none
  default_branch : Option String := none

/-- Source: `_extract_author_info`.  `plugin.get("author", {})` defaults
to an empty dict, whose `name`/`url` lookups give `"Unknown"`/`""`; a
string author is returned as the name when truthy. -/
def extract_author_info (plugin : ProcessedPlugin) : String × String :=
  match plugin.author with
  | some (.info a) => (a.name.getD "Unknown", a.url.getD "")
  | some (.str s) => (if !s.data.isEmpty then s else "Unknown", "")
  | none => ("Unknown", "")

/-- Source: `_build_component_badges` — one fixed badge per present
component indicator, in the fixed dict-literal order `commands`, `skills`,
`agents`, `mcpServers`. -/
def build_component_badges (plugin : ProcessedPlugin) : List String :=
  (if plugin.commands.isSome then [":material-console: Commands"] else []) ++
  (if plugin.skills.isSome then [":material-puzzle: Skills"] else []) ++
  (if plugin.agents.isSome then [":material-robot: Agents"] else []) ++
  (if plugin.mcpServers.isSome then [":material-server: MCP Servers"] else [])

/-- Source: `_build_commands_section` — emitted only when `"commands" in
plugin`; a non-empty list value renders a table, anything else renders a
fallback sentence. -/
def build_commands_section (plugin : ProcessedPlugin) : List String :=
  if plugin.commands.isNone then []
  else
    ["## Available Commands", ""] ++
    (match plugin.commands.getD (.list []) with
     | .list cs =>
       if !cs.isEmpty then
         ["| Command | Description |", "|---------|-------------|"] ++
         cs.map (fun cmd => "| `" ++ (cmd ++ "` | See documentation |"))
       else
         ["See plugin documentation for available commands."]
     | .str _ => ["See plugin documentation for available commands."]) ++
    [""]

/-- Source: `_build_links_section`. -/
def build_links_section (repo_url author_name author_url : String) :
    List String :=
  ["## Links", ""] ++
  (if !repo_url.data.isEmpty then
    ["- :material-github: [Source Repository](" ++ (repo_url ++ ")")]
   else []) ++
  (if !author_url.data.isEmpty then
    ["- :material-account: [Author: " ++
      (author_name ++ ("](" ++ (author_url ++ ")")))]
   else if !author_name.data.isEmpty && author_name != "Unknown" then
    ["- :material-account: Author: " ++ author_name]
   else [])

/-- Frontmatter, badge, and blockquote lines of `generate_plugin_page`. -/
def pageHeader (name description version license_type category : String) :
    List String :=
  ["---",
   "title: " ++ name,
   "description: " ++ description,
   "---",
   "",
   "![Version](https://img.shields.io/badge/version-" ++ (version ++ "-blue)"),
   "![License](https://img.shields.io/badge/license-" ++ (license_type ++ "-green)"),
   "![Category](https://img.shields.io/badge/category-" ++ (category ++ "-orange)"),
   "",
   "> " ++ description,
   ""]

/-- Components section of `generate_plugin_page` (only when at least one
badge is present). -/
def pageComponents (badges : List String) : List String :=
  if !badges.isEmpty then ["## Components", "", pyJoin " | " badges, ""]
  else []

/-- Installation section of `generate_plugin_page`. -/
def pageInstall (name repo : String) : List String :=
  ["## Installation",
   "",
   "**From Marketplace:**",
   "",
   "```bash",
   "/plugin install " ++ name,
   "```",
   "",
   "**Direct from GitHub:**",
   "",
   "```bash",
   "/plugin install " ++ repo,
   "```",
   ""]

/-- Requirements section of `generate_plugin_page`; the extra bullet is
added when the name mentions "chrome" or the description mentions
"browser" (case-insensitively). -/
def pageRequirements (name description : String) : List String :=
  ["## Requirements", "", "- Claude Code installed and configured"] ++
  (if pyContains (pyLower name) "chrome" ||
      pyContains (pyLower description) "browser" then
    ["- Claude in Chrome browser extension"]
   else []) ++
  ["", ""]

/-- Tags section of `generate_plugin_page` (`if all_tags:`). -/
def pageTags (all_tags : List String) : List String :=
  if !all_tags.isEmpty then
    ["## Tags", "",
     pyJoin " " ((pySorted all_tags).map (fun tag => "`" ++ (tag ++ "`"))),
     ""]
  else []

/-- Trailing separator and timestamp lines of `generate_plugin_page`. -/
def pageFooter (timestamp : String) : List String :=
  ["", "---", "", "*Last generated: " ++ (timestamp ++ "*")]

/-- `repo = source.get("repo", "") if isinstance(source, dict) else ""`
with `source = plugin.get("source", {})`. -/
def pluginRepo (plugin : ProcessedPlugin) : String :=
  match plugin.source with
  | some (.info s) => s.repo.getD ""
  | some (.str _) => ""
  | none => ""

/-- The list `lines` built by `generate_plugin_page`, before the final
`"\n".join(lines)`.  The current UTC timestamp is a parameter. -/
def generate_plugin_page_lines (plugin : ProcessedPlugin)
    (timestamp : String) : List String :=
  let name := plugin.name.getD "Unknown Plugin"
  let description := plugin.description.getD "No description available."
  let version := plugin.version.getD "N/A"
  let license_type := plugin.license.getD "MIT"
  let category := plugin.category.getD "automation"
  let repo := pluginRepo plugin
  let repo_url := if !repo.data.isEmpty then "https://github.com/" ++ repo else ""
  let ani := extract_author_info plugin
  let all_tags := (plugin.tags.getD [] ++ plugin.keywords.getD []).dedup
  pageHeader name description version license_type category ++
  pageComponents (build_component_badges plugin) ++
  pageInstall name repo ++
  build_commands_section plugin ++
  pageRequirements name description ++
  pageTags all_tags ++
  build_links_section repo_url ani.1 ani.2 ++
  pageFooter timestamp

/-- Source: `generate_plugin_page` — `"\n".join(lines)`. -/
def generate_plugin_page (plugin : ProcessedPlugin) (timestamp : String) :
    String :=
  pyJoin "\n" (generate_plugin_page_lines plugin timestamp)

/-! ### Index page renderer -/

/-- The description cell of one summary-table row: truncated to 57
characters plus `"..."` when longer than 60 (`max_desc_len = 60`). -/
def truncateDescription (description : String) : String :=
  if 60 < pyLen description then pySlice description 57 ++ "..." else description

/-- One row of the index summary table (body of the first loop of
`generate_index_page`). -/
def indexRow (plugin : ProcessedPlugin) : String :=
  let name := plugin.name.getD "unknown"
  let version := plugin.version.getD "N/A"
  let category := plugin.category.getD "automation"
  let description := plugin.description.getD "No description"
  "| [" ++ (name ++ ("](" ++ (name ++ (".md) | " ++ (version ++ (" | " ++
    (category ++ (" | " ++ (truncateDescription description ++ " |")))))))))

/-- The category-section description: truncated to 77 characters plus
`"..."` when longer than 80 (`max_cat_desc_len = 80`). -/
def truncateCatDescription (description : String) : String :=
  if 80 < pyLen description then pySlice description 77 ++ "..." else description

/-- One bullet of a category group. -/
def indexCatRow (plugin : ProcessedPlugin) : String :=
  let name := plugin.name.getD "unknown"
  let description := plugin.description.getD "No description"
  "- [" ++ (name ++ ("](" ++ (name ++ (".md) - " ++
    truncateCatDescription description))))

/-- `categories.setdefault(cat, []).append(plugin)` over the plugin list:
group by category in first-occurrence order. -/
def groupByCategory (plugins : List ProcessedPlugin) :
    List (String × List ProcessedPlugin) :=
  plugins.foldl
    (fun acc plugin =>
      let cat := plugin.category.getD "automation"
      if acc.any (fun p => p.1 == cat) then
        acc.map (fun p => if p.1 == cat then (p.1, p.2 ++ [plugin]) else p)
      else
        acc ++ [(cat, [plugin])])
    []

/-- Python `str.title()` (ASCII): uppercase each letter that does not
follow a letter, lowercase the rest. -/
def pyTitle (s : String) : String :=
  ⟨(s.data.foldl
      (fun (acc : List Char × Bool) c =>
        let isAlpha := c.isAlpha
        let c' := if isAlpha then (if acc.2 then c.toLower else c.toUpper) else c
        (acc.1 ++ [c'], isAlpha))
      ([], false)).1⟩

/-- One category group: title-cased heading plus one bullet per plugin. -/
def indexCategoryLines (cat : String × List ProcessedPlugin) : List String :=
  ["### " ++ pyTitle cat.1, ""] ++ cat.2.map indexCatRow ++ [""]

/-- Source: `generate_index_page`.  `marketplace.get("version", "1.0.0")`
is passed in as `mversion`; groups are emitted in ascending lexical order
of the category string (`sorted(categories.items())`, a stable sort on
distinct keys). -/
def generate_index_page (plugins : List ProcessedPlugin)
    (mversion : Option String) (timestamp : String) : String :=
  let marketplace_version := mversion.getD "1.0.0"
  let header :=
    ["---",
     "title: Plugin Overview",
     "description: All available plugins in the F5 Distributed Cloud marketplace",
     "---",
     "",
     "Marketplace Version: `" ++ (marketplace_version ++ "`"),
     "",
     "This page lists all plugins available in the F5 Distributed Cloud marketplace.",
     "",
     "## Available Plugins",
     "",
     "| Plugin | Version | Category | Description |",
     "|--------|---------|----------|-------------|"]
  let rows := plugins.map indexRow
  let mid :=
    ["",
     "## Quick Install",
     "",
     "```bash",
     "# Add this marketplace",
     "/plugin marketplace add robinmordasiewicz/f5-distributed-cloud-marketplace",
     "",
     "# Install any plugin",
     "/plugin install <plugin-name>",
     "```",
     "",
     "## Plugin Categories",
     ""]
  let cats :=
    ((groupByCategory plugins).insertionSort
      (fun a b => pyStrLeB a.1.data b.1.data = true)).flatMap
      indexCategoryLines
  let footer := ["---", "", "*Last generated: " ++ (timestamp ++ "*")]
  pyJoin "\n" (header ++ rows ++ mid ++ cats ++ footer)

/-! ### Validator -/

/-- The required section literals checked by the validator. -/
def requiredSections : List String := ["## Installation", "## Links"]

/-- Source: `validate_generated_markdown`, applied to the file's content
string: one warning per failed check, in check order. -/
def validate_generated_markdown (content : String) : List String :=
  (requiredSections.filterMap
    (fun sec =>
      if pyContains content sec then none
      else some ("Missing required section: " ++ sec))) ++
  (if pyContains content "![Version]" then [] else ["Missing version badge"]) ++
  (if pyStartsWith content "---" then [] else ["Missing YAML frontmatter"])

/-! ### Main (exit codes)

`main` returns `1` when `load_marketplace` raises `FileNotFoundError` or
`json.JSONDecodeError`, returns `0` when the `plugins` value is falsy, and
otherwise processes each plugin and returns `0`.  Per-plugin processing
can only escape `main`'s 0/1 returns by raising an uncaught exception
(e.g. the `TypeError` of `_merge_author_info`), modelled as
`Except.error`: in that case `main` produces no return value at all (the
interpreter then dies with a traceback).  Rendering, file writes and the
accumulated validation warnings do not influence the returned exit code
and are omitted from this model; the network fetches of each plugin are
abstracted by the per-index oracles `fetchPJ`/`fetchRI`. -/

/-- A runtime value: a JSON scalar, an immutable list, or a reference to a
dict cell. -/
inductive Val where
  | vnull
  | vbool (b : Bool)
  | vnum (n : Int)
  | vstr (s : String)
  | vlist (l : List Val)
  | dref (a : Nat)

/-- A dict cell: an insertion-ordered association list. -/
abbrev DictV := List (String × Val)

/-- The heap: cell `a` is `h[a]`. -/
abbrev Heap := List DictV

/-- Allocate a fresh cell; its address is the old heap length. -/
def halloc (h : Heap) (d : DictV) : Nat × Heap := (h.length, h ++ [d])

/-- Read a cell. -/
def hread (h : Heap) (a : Nat) : DictV := (h[a]?).getD []

/-- `d.get(k)` on a cell's association list. -/
def vget (d : DictV) (k : String) : Option Val :=
  (d.find? (fun p => p.1 == k)).map (fun p => p.2)

/-- `d[k] = v` on a cell's association list. -/
def vset : DictV → String → Val → DictV
  | [], k, v => [(k, v)]
  | p :: t, k, v => if p.1 == k then (k, v) :: t else p :: vset t k v

/-- `{**a, **b}` on association lists. -/
def vmerge (a b : DictV) : DictV :=
  b.foldl (fun acc p => vset acc p.1 p.2) a

/-- `d[k] = v` on the heap: mutate cell `a` in place. -/
def hwrite (h : Heap) (a : Nat) (k : String) (v : Val) : Heap :=
  h.set a (vset (hread h a) k v)

/-- Python truthiness of a runtime value; a dict reference is truthy iff
its cell is non-empty. -/
def truthyV (h : Heap) : Val → Bool
  | .vnull => false
  | .vbool b => b
  | .vnum n => n != 0
  | .vstr s => !s.data.isEmpty
  | .vlist l => !l.isEmpty
  | .dref a => !(hread h a).isEmpty

/-- Imperative `_merge_author_info`: the `{"name": new_author}` display
allocates, and `{**existing, **new_author}` allocates the merged dict;
the inputs are only read. -/
def mergeAuthorInfoImp (h : Heap) (existing : Option Val) (new_author : Val) :
    Except String (Val × Heap) :=
  match new_author with
  | .vstr s =>
    let (na, h') := halloc h [("name", .vstr s)]
    match existing with
    | some (.dref ea) =>
      let (m, h'') := halloc h' (vmerge (hread h' ea) (hread h' na))
      .ok (.dref m, h'')
    | _ => .ok (.dref na, h')
  | _ =>
    match existing with
    | some (.dref ea) =>
      match new_author with
      | .dref naA =>
        let (m, h') := halloc h (vmerge (hread h ea) (hread h naA))
        .ok (.dref m, h')
      | _ => .error "TypeError"
    | _ => .ok (new_author, h)

/-- Imperative overridable-field loop of `_apply_plugin_json_fields`:
writes go to the merged cell only. -/
def applyOverridableImp (h : Heap) (mAddr pjAddr : Nat) : Heap :=
  overridableFields.foldl
    (fun h field =>
      match vget (hread h pjAddr) field with
      | some value => if truthyV h value then hwrite h mAddr field value else h
      | none => h)
    h

/-- Imperative author step of `_apply_plugin_json_fields`. -/
def applyAuthorImp (h : Heap) (mAddr pjAddr : Nat) : Except String Heap :=
  match vget (hread h pjAddr) "author" with
  | some author_data =>
    if truthyV h author_data then
      match mergeAuthorInfoImp h (vget (hread h mAddr) "author") author_data with
      | .ok (ma, h') => .ok (hwrite h' mAddr "author" ma)
      | .error e => .error e
    else .ok h
  | none => .ok h

/-- Imperative component-copy loop of `_apply_plugin_json_fields`. -/
def applyComponentsImp (h : Heap) (mAddr pjAddr : Nat) : Heap :=
  componentFields.foldl
    (fun h component =>
      match vget (hread h pjAddr) component with
      | some v => hwrite h mAddr component v
      | none => h)
    h

/-- Imperative `_apply_plugin_json_fields`. -/
def applyPluginJsonFieldsImp (h : Heap) (mAddr pjAddr : Nat) :
    Except String Heap :=
  match applyAuthorImp (applyOverridableImp h mAddr pjAddr) mAddr pjAddr with
  | .ok h2 => .ok (applyComponentsImp h2 mAddr pjAddr)
  | .error e => .error e

/-- Imperative `_apply_repo_info`. -/
def applyRepoInfoImp (h : Heap) (mAddr riAddr : Nat) : Heap :=
  let h1 := hwrite h mAddr "stars"
    ((vget (hread h riAddr) "stargazers_count").getD (.vnum 0))
  let h2 := hwrite h1 mAddr "updated_at"
    ((vget (hread h1 riAddr) "updated_at").getD (.vstr ""))
  let h3 := hwrite h2 mAddr "topics"
    ((vget (hread h2 riAddr) "topics").getD (.vlist []))
  hwrite h3 mAddr "default_branch"
    ((vget (hread h3 riAddr) "default_branch").getD (.vstr "main"))

/-- Imperative `if plugin_json:` branch. -/
def pluginBranchImp (h : Heap) (mAddr : Nat) (pjAddr : Option Nat) :
    Except String Heap :=
  match pjAddr with
  | some pa =>
    if !(hread h pa).isEmpty then applyPluginJsonFieldsImp h mAddr pa
    else .ok h
  | none => .ok h

/-- Imperative `if repo_info:` branch. -/
def repoBranchImp (h : Heap) (mAddr : Nat) (riAddr : Option Nat) : Heap :=
  match riAddr with
  | some ra =>
    if !(hread h ra).isEmpty then applyRepoInfoImp h mAddr ra else h
  | none => h

/-- Imperative `merge_metadata`: `merged = dict(marketplace_entry)` is a
shallow-copy allocation; all subsequent writes target that fresh cell. -/
def mergeMetadataImp (h : Heap) (entryAddr : Nat)
    (pjAddr riAddr : Option Nat) : Except String (Nat × Heap) :=
  let (mAddr, h1) := halloc h (hread h entryAddr)
  match pluginBranchImp h1 mAddr pjAddr with
  | .ok h2 => .ok (mAddr, repoBranchImp h2 mAddr riAddr)
  | .error e => .error e

/-! ### Derived definitions used by the verification -/

/-- The value each overridable field carries after the manifest overlay:
the manifest's value exactly when truthy, the entry's value otherwise. -/
def overlayRule (plugin_json entry : Dict) (f : String) : Option Json :=
  match dictGet plugin_json f with
  | some v => if truthy v then some v else dictGet entry f
  | none => dictGet entry f

/-- The four fields supplied only by the GitHub repo info. -/
def repoInfoFields : List String :=
  ["stars", "updated_at", "topics", "default_branch"]

/-- The string-author coercion performed by `_merge_author_info`. -/
def coerceAuthor : Json → Json
  | .str s => .obj [("name", .str s)]
  | x => x

/-- The catalog author viewed as a key-value mapping: a structured record
has its own keys, an absent or plain-string author has none. -/
def catalogAuthorKeys : Option Json → Dict
  | some (.obj e) => e
  | _ => []

/-- The coerced manifest author viewed as a key-value mapping. -/
def coercedAuthorKeys (na : Json) : Dict :=
  match coerceAuthor na with
  | .obj n => n
  | _ => []

/-- The first character of a string (padding with a blank). -/
def firstCharD (s : String) : Char := s.data.headD ' '

/-- Evolution of the heap during the merge: the heap only grows, and
every pre-existing cell other than the merged copy `m` is untouched. -/
def Ev (m : Nat) (h h' : Heap) : Prop :=
  h.length ≤ h'.length ∧ ∀ a, a < h.length → ¬a = m → h'[a]? = h[a]?

/-! ### Theorems -/
/-! ### Dictionary lemmas -/

theorem dictGet_cons (p : String × Json) (t : Dict) (k : String) :
    dictGet (p :: t) k = if p.1 == k then some p.2 else dictGet t k := by
  unfold dictGet
  cases h : p.1 == k <;> simp [List.find?, h]

theorem dictGet_dictSet_self (d : Dict) (k : String) (v : Json) :
    dictGet (dictSet d k v) k = some v := by
  induction d with
  | nil => simp [dictSet, dictGet_cons]
  | cons p t ih =>
    unfold dictSet
    cases h : p.1 == k
    · simp [h, dictGet_cons, ih]
    · simp [dictGet_cons]

theorem dictGet_dictSet_ne (d : Dict) (k k' : String) (v : Json)
    (h : ¬k = k') : dictGet (dictSet d k v) k' = dictGet d k' := by
  induction d with
  | nil => simp [dictSet, dictGet_cons, dictGet, beq_iff_eq, h]
  | cons p t ih =>
    unfold dictSet
    cases hp : p.1 == k
    · simp [dictGet_cons, ih]
    · have hpk : p.1 = k := by simpa using hp
      simp [dictGet_cons, beq_iff_eq, h, hpk]



theorem dictGet_ovStep_ne (pj acc : Dict) (g f : String) (hgf : ¬g = f) :
    dictGet (ovStep pj acc g) f = dictGet acc f := by
  unfold ovStep
  cases hv : dictGet pj g with
  | none => rfl
  | some v =>
    by_cases ht : truthy v = true
    · simp [ht, dictGet_dictSet_ne _ _ _ _ hgf]
    · simp [ht]

theorem dictGet_ovStep_self (pj acc : Dict) (f : String) :
    dictGet (ovStep pj acc f) f = overlayRule pj acc f := by
  unfold ovStep overlayRule
  cases hv : dictGet pj f with
  | none => rfl
  | some v =>
    by_cases ht : truthy v = true
    · simp [ht, dictGet_dictSet_self]
    · simp [ht]

theorem dictGet_compStep_ne (pj acc : Dict) (g f : String) (hgf : ¬g = f) :
    dictGet (compStep pj acc g) f = dictGet acc f := by
  unfold compStep
  cases hv : dictGet pj g with
  | none => rfl
  | some v => simp [dictGet_dictSet_ne _ _ _ _ hgf]

theorem foldl_ovStep_notmem (pj : Dict) (fields : List String) (f : String)
    (hf : f ∉ fields) :
    ∀ merged : Dict,
      dictGet (fields.foldl (ovStep pj) merged) f = dictGet merged f := by
  induction fields with
  | nil => intro merged; rfl
  | cons g t ih =>
    intro merged
    have hgf : ¬g = f := fun he => hf (he ▸ List.mem_cons_self g t)
    have hft : f ∉ t := fun ht => hf (List.mem_cons_of_mem g ht)
    rw [List.foldl_cons, ih hft, dictGet_ovStep_ne pj merged g f hgf]

theorem foldl_ovStep_mem (pj : Dict) (fields : List String) (f : String)
    (hf : f ∈ fields) (hnd : fields.Nodup) :
    ∀ merged : Dict,
      dictGet (fields.foldl (ovStep pj) merged) f = overlayRule pj merged f := by
  induction fields with
  | nil => cases hf
  | cons g t ih =>
    intro merged
    rcases List.mem_cons.mp hf with he | ht
    · subst he
      have hft : f ∉ t := (List.nodup_cons.mp hnd).1
      rw [List.foldl_cons, foldl_ovStep_notmem pj t f hft,
        dictGet_ovStep_self pj merged f]
    · have hgf : ¬g = f := fun he => ((List.nodup_cons.mp hnd).1 (he ▸ ht))
      rw [List.foldl_cons, ih ht (List.nodup_cons.mp hnd).2]
      unfold overlayRule
      rw [dictGet_ovStep_ne pj merged g f hgf]

theorem foldl_compStep_notmem (pj : Dict) (fields : List String) (f : String)
    (hf : f ∉ fields) :
    ∀ merged : Dict,
      dictGet (fields.foldl (compStep pj) merged) f = dictGet merged f := by
  induction fields with
  | nil => intro merged; rfl
  | cons g t ih =>
    intro merged
    have hgf : ¬g = f := fun he => hf (he ▸ List.mem_cons_self g t)
    have hft : f ∉ t := fun ht => hf (List.mem_cons_of_mem g ht)
    rw [List.foldl_cons, ih hft, dictGet_compStep_ne pj merged g f hgf]

theorem applyAuthor_get_ne (merged pj m2 : Dict)
    (hok : applyAuthor merged pj = .ok m2) (f : String) (hf : ¬f = "author") :
    dictGet m2 f = dictGet merged f := by
  unfold applyAuthor at hok
  cases hga : dictGet pj "author" with
  | none =>
    rw [hga] at hok
    simp only [] at hok
    cases hok
    rfl
  | some a =>
    rw [hga] at hok
    simp only [] at hok
    by_cases ht : truthy a = true
    · simp only [ht, if_true] at hok
      cases hma : merge_author_info (dictGet merged "author") a with
      | ok ma =>
        simp only [hma] at hok
        cases hok
        exact dictGet_dictSet_ne _ _ _ _ (fun he => hf (he.symm ▸ rfl))
      | error e =>
        simp only [hma] at hok
        exact Except.noConfusion hok
    · simp only [ht, if_false] at hok
      cases hok
      rfl



theorem apply_repo_info_get_ne (m ri : Dict) (f : String)
    (hf : f ∉ repoInfoFields) :
    dictGet (apply_repo_info m ri) f = dictGet m f := by
  have h1 : ¬"stars" = f := fun he => hf (by rw [← he]; simp [repoInfoFields])
  have h2 : ¬"updated_at" = f := fun he => hf (by rw [← he]; simp [repoInfoFields])
  have h3 : ¬"topics" = f := fun he => hf (by rw [← he]; simp [repoInfoFields])
  have h4 : ¬"default_branch" = f := fun he =>
    hf (by rw [← he]; simp [repoInfoFields])
  unfold apply_repo_info
  rw [dictGet_dictSet_ne _ _ _ _ h4, dictGet_dictSet_ne _ _ _ _ h3,
    dictGet_dictSet_ne _ _ _ _ h2, dictGet_dictSet_ne _ _ _ _ h1]

theorem applyRepoBranch_get_ne (m : Dict) (ri : Option Dict) (f : String)
    (hf : f ∉ repoInfoFields) :
    dictGet (applyRepoBranch m ri) f = dictGet m f := by
  unfold applyRepoBranch
  cases ri with
  | none => rfl
  | some r =>
    by_cases hre : r.isEmpty = true
    · simp [hre]
    · simp [hre, apply_repo_info_get_ne m r f hf]

/-- Claim C1: for every catalog entry, manifest option and repo info, when
`merge_metadata` returns a record, each overridable field (version,
description, license, keywords, homepage) of the result is the manifest's
value exactly when that value is truthy and the catalog entry's value
otherwise (in particular the entry's value whenever the manifest is
absent). -/
theorem merge_metadata_overridable_overlay (e : Dict)
    (pj ri : Option Dict) (res : Dict)
    (hok : merge_metadata e pj ri = .ok res) (f : String)
    (hf : f ∈ overridableFields) :
    dictGet res f = overlayRule (pj.getD []) e f := by
  have hcomp : f ∉ componentFields := by fin_cases hf <;> decide
  have hauth : ¬f = "author" := by fin_cases hf <;> decide
  have hrepo : f ∉ repoInfoFields := by fin_cases hf <;> decide
  have hnil : overlayRule [] e f = dictGet e f := rfl
  unfold merge_metadata at hok
  cases hpb : applyPluginBranch e pj with
  | error e' =>
    rw [hpb] at hok
    exact Except.noConfusion hok
  | ok m =>
    rw [hpb] at hok
    simp only [] at hok
    cases hok
    rw [applyRepoBranch_get_ne m ri f hrepo]
    unfold applyPluginBranch at hpb
    cases pj with
    | none =>
      simp only [] at hpb
      cases hpb
      exact hnil
    | some pjd =>
      simp only [] at hpb
      simp only [Option.getD]
      by_cases hpe : pjd.isEmpty = true
      · have hpjnil : pjd = [] := by simpa using hpe
        subst hpjnil
        simp only [List.isEmpty_nil, Bool.not_true, if_neg] at hpb
        simp only [Bool.false_eq_true, if_false] at hpb
        cases hpb
        exact hnil
      · have hpe' : pjd.isEmpty = false := by simpa using hpe
        rw [hpe'] at hpb
        simp only [Bool.not_false, if_true] at hpb
        unfold apply_plugin_json_fields at hpb
        cases haa : applyAuthor (applyOverridable e pjd) pjd with
        | error e2 =>
          simp only [haa] at hpb
          exact Except.noConfusion hpb
        | ok m2 =>
          simp only [haa] at hpb
          cases hpb
          unfold applyComponents
          rw [foldl_compStep_notmem pjd componentFields f hcomp]
          rw [applyAuthor_get_ne _ _ _ haa f hauth]
          unfold applyOverridable
          rw [foldl_ovStep_mem pjd overridableFields f hf (by decide)]

/-- Witness for C1 at a concrete entry, manifest and absent repo info:
the truthy manifest version wins, the falsy manifest description does
not. -/
theorem merge_metadata_overridable_overlay_witness :
    dictGet [("version", Json.str "2.0")] "version" =
      overlayRule [("version", Json.str "2.0"), ("description", Json.str "")]
        [("version", Json.str "1.0")] "version" :=
  merge_metadata_overridable_overlay [("version", Json.str "1.0")]
    (some [("version", Json.str "2.0"), ("description", Json.str "")]) none
    [("version", Json.str "2.0")] rfl "version" (by decide)

/-! ### Author merge (C2) -/





theorem dictGet_dictMerge (e n : Dict) (hnd : keysNodup n) (k : String) :
    dictGet (dictMerge e n) k = (dictGet n k).or (dictGet e k) := by
  induction n generalizing e with
  | nil => simp [dictMerge, dictGet]
  | cons p t ih =>
    have hnd' : keysNodup t := by
      unfold keysNodup at hnd ⊢
      exact (List.nodup_cons.mp (by simpa using hnd)).2
    have hp1 : p.1 ∉ t.map Prod.fst := by
      unfold keysNodup at hnd
      exact (List.nodup_cons.mp (by simpa using hnd)).1
    unfold dictMerge at ih ⊢
    rw [List.foldl_cons]
    rw [ih (dictSet e p.1 p.2) hnd']
    by_cases hk : p.1 = k
    · subst hk
      have htn : dictGet t p.1 = none := by
        unfold dictGet
        rw [List.find?_eq_none.mpr]
        · rfl
        · intro q hq hbq
          exact hp1 (by
            have : q.1 = p.1 := by simpa using hbq
            exact this ▸ List.mem_map_of_mem Prod.fst hq)
      rw [htn, dictGet_dictSet_self]
      rw [dictGet_cons]
      simp
    · rw [dictGet_dictSet_ne _ _ _ _ hk, dictGet_cons]
      have : (p.1 == k) = false := by simpa using hk
      rw [this]
      simp



/-- Claim C2: for every catalog author (absent, plain string, or
structured record) and every truthy manifest author that is a plain
string or a record, the merged author is the shallow key union in which
the (string-coerced) manifest's keys win and catalog-only keys survive. -/
theorem merge_author_info_key_union (existing : Option Json)
    (new_author : Json)
    (hex : existing = none ∨ (∃ s, existing = some (.str s)) ∨
      ∃ eo, existing = some (.obj eo))
    (hna : (∃ s, new_author = .str s) ∨
      ∃ no, new_author = .obj no ∧ keysNodup no)
    (ht : truthy new_author = true) :
    ∃ res : Dict, merge_author_info existing new_author = .ok (.obj res) ∧
      ∀ k, dictGet res k =
        (dictGet (coercedAuthorKeys new_author) k).or
          (dictGet (catalogAuthorKeys existing) k) := by
  rcases hna with ⟨s, rfl⟩ | ⟨no, rfl, hnd⟩
  · have hndc : keysNodup ([("name", Json.str s)] : Dict) := by
      unfold keysNodup; simp
    rcases hex with rfl | ⟨t, rfl⟩ | ⟨eo, rfl⟩
    · refine ⟨[("name", .str s)], rfl, fun k => ?_⟩
      simp [coercedAuthorKeys, coerceAuthor, catalogAuthorKeys, dictGet]
    · refine ⟨[("name", .str s)], rfl, fun k => ?_⟩
      simp [coercedAuthorKeys, coerceAuthor, catalogAuthorKeys, dictGet]
    · refine ⟨dictMerge eo [("name", .str s)], rfl, fun k => ?_⟩
      rw [dictGet_dictMerge eo [("name", .str s)] hndc k]
      simp [coercedAuthorKeys, coerceAuthor, catalogAuthorKeys]
  · rcases hex with rfl | ⟨t, rfl⟩ | ⟨eo, rfl⟩
    · refine ⟨no, rfl, fun k => ?_⟩
      simp [coercedAuthorKeys, coerceAuthor, catalogAuthorKeys, dictGet]
    · refine ⟨no, rfl, fun k => ?_⟩
      simp [coercedAuthorKeys, coerceAuthor, catalogAuthorKeys, dictGet]
    · refine ⟨dictMerge eo no, rfl, fun k => ?_⟩
      rw [dictGet_dictMerge eo no hnd k]
      simp [coercedAuthorKeys, coerceAuthor, catalogAuthorKeys]

/-- Witness for C2 at the claim's concrete example: catalog author
`{"name": "A", "url": "u"}` merged with manifest author string `"B"`
gives exactly `{"name": "B", "url": "u"}`, and the general key-union
property holds there. -/
theorem merge_author_info_key_union_witness :
    merge_author_info (some (.obj [("name", Json.str "A"), ("url", Json.str "u")]))
        (Json.str "B") =
      .ok (.obj [("name", Json.str "B"), ("url", Json.str "u")]) ∧
    ∃ res : Dict,
      merge_author_info
          (some (.obj [("name", Json.str "A"), ("url", Json.str "u")]))
          (Json.str "B") = .ok (.obj res) ∧
      ∀ k, dictGet res k =
        (dictGet (coercedAuthorKeys (Json.str "B")) k).or
          (dictGet (catalogAuthorKeys
            (some (.obj [("name", Json.str "A"), ("url", Json.str "u")]))) k) :=
  ⟨rfl,
   merge_author_info_key_union
     (some (.obj [("name", Json.str "A"), ("url", Json.str "u")]))
     (Json.str "B") (Or.inr (Or.inr ⟨_, rfl⟩)) (Or.inl ⟨_, rfl⟩) (by decide)⟩

/-! ### Fetch scheme check (C3) -/

/-- Claim C3: a URL that does not start with `https://` yields an absent
result for every possible network behaviour — the scheme check
short-circuits before the request is built. -/
theorem fetch_refuses_non_https (url : String)
    (h : pyStartsWith url "https://" = false) :
    ∀ net : String → Option Json, fetch_json_from_url net url = none := by
  intro net
  unfold fetch_json_from_url validate_url_scheme
  simp [h]

/-- Witness for C3 at a concrete `http://` URL and a concrete network
oracle that would answer every request. -/
theorem fetch_refuses_non_https_witness :
    fetch_json_from_url (fun _ => some Json.null)
      "http://example.com/plugin.json" = none :=
  fetch_refuses_non_https "http://example.com/plugin.json" (by decide)
    (fun _ => some Json.null)

/-! ### Repo-info overlay (C4) -/

theorem apply_repo_info_fields (m r : Dict) :
    dictGet (apply_repo_info m r) "stars" =
      some (dictGetD r "stargazers_count" (.num 0)) ∧
    dictGet (apply_repo_info m r) "updated_at" =
      some (dictGetD r "updated_at" (.str "")) ∧
    dictGet (apply_repo_info m r) "topics" =
      some (dictGetD r "topics" (.arr [])) ∧
    dictGet (apply_repo_info m r) "default_branch" =
      some (dictGetD r "default_branch" (.str "main")) := by
  unfold apply_repo_info
  refine ⟨?_, ?_, ?_, ?_⟩
  · rw [dictGet_dictSet_ne _ _ _ _ (by decide),
      dictGet_dictSet_ne _ _ _ _ (by decide),
      dictGet_dictSet_ne _ _ _ _ (by decide), dictGet_dictSet_self]
  · rw [dictGet_dictSet_ne _ _ _ _ (by decide),
      dictGet_dictSet_ne _ _ _ _ (by decide), dictGet_dictSet_self]
  · rw [dictGet_dictSet_ne _ _ _ _ (by decide), dictGet_dictSet_self]
  · rw [dictGet_dictSet_self]

theorem applyPluginBranch_get_outside (e : Dict) (pj : Option Dict)
    (m : Dict) (hok : applyPluginBranch e pj = .ok m) (f : String)
    (hov : f ∉ overridableFields) (hcp : f ∉ componentFields)
    (ha : ¬f = "author") : dictGet m f = dictGet e f := by
  unfold applyPluginBranch at hok
  cases pj with
  | none =>
    simp only [] at hok
    cases hok
    rfl
  | some pjd =>
    simp only [] at hok
    by_cases hpe : pjd.isEmpty = true
    · rw [hpe] at hok
      simp only [Bool.not_true, Bool.false_eq_true, if_false] at hok
      cases hok
      rfl
    · have hpe' : pjd.isEmpty = false := by simpa using hpe
      rw [hpe'] at hok
      simp only [Bool.not_false, if_true] at hok
      unfold apply_plugin_json_fields at hok
      cases haa : applyAuthor (applyOverridable e pjd) pjd with
      | error e2 =>
        simp only [haa] at hok
        exact Except.noConfusion hok
      | ok m2 =>
        simp only [haa] at hok
        cases hok
        unfold applyComponents
        rw [foldl_compStep_notmem pjd componentFields f hcp]
        rw [applyAuthor_get_ne _ _ _ haa f ha]
        unfold applyOverridable
        rw [foldl_ovStep_notmem pjd overridableFields f hov]

/-- Claim C4, amended: whenever repo-info is present and truthy
(non-empty), `merge_metadata` sets exactly the four fields `stars`,
`updated_at`, `topics`, `default_branch`, defaulting to `0`, `""`, `[]`
and `"main"` for keys missing from the payload; when repo-info is absent
or empty, none of the four fields is touched. -/
theorem merge_metadata_repo_info (e : Dict) (pj ri : Option Dict)
    (res : Dict) (hok : merge_metadata e pj ri = .ok res) :
    (∀ r, ri = some r → ¬r = [] →
      dictGet res "stars" = some (dictGetD r "stargazers_count" (.num 0)) ∧
      dictGet res "updated_at" = some (dictGetD r "updated_at" (.str "")) ∧
      dictGet res "topics" = some (dictGetD r "topics" (.arr [])) ∧
      dictGet res "default_branch" =
        some (dictGetD r "default_branch" (.str "main"))) ∧
    ((ri = none ∨ ri = some []) →
      ∀ f ∈ repoInfoFields, dictGet res f = dictGet e f) := by
  unfold merge_metadata at hok
  cases hpb : applyPluginBranch e pj with
  | error e' =>
    rw [hpb] at hok
    exact Except.noConfusion hok
  | ok m =>
    rw [hpb] at hok
    simp only [] at hok
    cases hok
    constructor
    · rintro r rfl hr
      have hre : r.isEmpty = false := by
        cases r with
        | nil => exact absurd rfl hr
        | cons a t => rfl
      unfold applyRepoBranch
      simp only [hre, Bool.not_false, if_true]
      exact apply_repo_info_fields m r
    · intro hri f hf
      have hmf : dictGet m f = dictGet e f := by
        refine applyPluginBranch_get_outside e pj m hpb f ?_ ?_ ?_ <;>
          fin_cases hf <;> decide
      rcases hri with rfl | rfl
      · exact hmf
      · unfold applyRepoBranch
        simp only [List.isEmpty_nil, Bool.not_true, Bool.false_eq_true, if_false]
        exact hmf

/-- Counterexample to C4 as stated: repo-info that is present but empty
(`{}` — e.g. an API response with body `{}`) is falsy, so
`merge_metadata` skips `_apply_repo_info` entirely and the four fields
are not set at all, contradicting "whenever repo-info is present,
merge_metadata unconditionally sets ... using the defaults". -/
theorem merge_metadata_repo_info_empty_counterexample :
    merge_metadata [] none (some []) = .ok [] ∧
    dictGet ([] : Dict) "stars" = none :=
  ⟨rfl, rfl⟩

/-- Witness for the amended C4 at a concrete payload carrying only
`stargazers_count`. -/
theorem merge_metadata_repo_info_witness :
    (∀ r, (some [("stargazers_count", Json.num 7)] : Option Dict) = some r →
      ¬r = [] →
      dictGet [("stars", Json.num 7), ("updated_at", Json.str ""),
        ("topics", Json.arr []), ("default_branch", Json.str "main")] "stars" =
        some (dictGetD r "stargazers_count" (.num 0)) ∧
      dictGet [("stars", Json.num 7), ("updated_at", Json.str ""),
        ("topics", Json.arr []), ("default_branch", Json.str "main")]
          "updated_at" = some (dictGetD r "updated_at" (.str "")) ∧
      dictGet [("stars", Json.num 7), ("updated_at", Json.str ""),
        ("topics", Json.arr []), ("default_branch", Json.str "main")]
          "topics" = some (dictGetD r "topics" (.arr [])) ∧
      dictGet [("stars", Json.num 7), ("updated_at", Json.str ""),
        ("topics", Json.arr []), ("default_branch", Json.str "main")]
          "default_branch" = some (dictGetD r "default_branch" (.str "main"))) ∧
    ((some [("stargazers_count", Json.num 7)] = none ∨
      some [("stargazers_count", Json.num 7)] = some []) →
      ∀ f ∈ repoInfoFields,
        dictGet [("stars", Json.num 7), ("updated_at", Json.str ""),
          ("topics", Json.arr []), ("default_branch", Json.str "main")] f =
          dictGet ([] : Dict) f) :=
  merge_metadata_repo_info [] none (some [("stargazers_count", Json.num 7)])
    [("stars", Json.num 7), ("updated_at", Json.str ""),
      ("topics", Json.arr []), ("default_branch", Json.str "main")] rfl

/-! ### Exit codes (C5) -/

/-- Claim C6: the validator performs four independent checks, appending
exactly one warning per failed check: the warning list is empty iff all
four checks pass, its length counts the failed checks, and a text missing
only `"## Links"` gets exactly the one warning naming that section (a
warning string that does contain `"Links"`). -/
theorem validate_generated_markdown_checks (content : String) :
    (validate_generated_markdown content = [] ↔
      (pyContains content "## Installation" = true ∧
       pyContains content "## Links" = true ∧
       pyContains content "![Version]" = true ∧
       pyStartsWith content "---" = true)) ∧
    (pyContains content "## Installation" = true →
     pyContains content "## Links" = false →
     pyContains content "![Version]" = true →
     pyStartsWith content "---" = true →
     validate_generated_markdown content =
       ["Missing required section: ## Links"]) ∧
    (validate_generated_markdown content).length =
      ((if pyContains content "## Installation" then 0 else 1) +
       (if pyContains content "## Links" then 0 else 1) +
       (if pyContains content "![Version]" then 0 else 1) +
       (if pyStartsWith content "---" then 0 else 1)) ∧
    pyContains "Missing required section: ## Links" "Links" = true := by
  cases h1 : pyContains content "## Installation" <;>
    cases h2 : pyContains content "## Links" <;>
      cases h3 : pyContains content "![Version]" <;>
        cases h4 : pyStartsWith content "---" <;>
          simp [validate_generated_markdown, requiredSections, h1, h2, h3, h4] <;>
            decide

/-- Witness for C6: a concrete document passing every check except
`"## Links"` gets exactly that one warning. -/
theorem validate_generated_markdown_checks_witness :
    validate_generated_markdown "---\n## Installation\n![Version]" =
      ["Missing required section: ## Links"] :=
  (validate_generated_markdown_checks "---\n## Installation\n![Version]").2.1
    (by decide) (by decide) (by decide) (by decide)

/-! ### Index description truncation (C8) -/

/-- Claim C8: in the index summary-table row, a description of length at
most 60 is rendered unchanged, and a longer one as its first 57
characters plus the 3-character ellipsis — total 60; in particular 61
characters truncate to exactly 60. -/
theorem truncateDescription_spec (d : String) :
    (pyLen d ≤ 60 → truncateDescription d = d) ∧
    (60 < pyLen d →
      truncateDescription d = pySlice d 57 ++ "..." ∧
      pyLen (truncateDescription d) = 60) ∧
    (pyLen d = 61 → pyLen (truncateDescription d) = 60) := by
  have hlen : 60 < pyLen d → pyLen (pySlice d 57 ++ "...") = 60 := by
    intro hgt
    have he : (pySlice d 57 ++ ("..." : String)).data =
        d.data.take 57 ++ ['.', '.', '.'] := rfl
    unfold pyLen at hgt ⊢
    rw [he, List.length_append, List.length_take]
    simp only [List.length_cons, List.length_nil]
    omega
  refine ⟨?_, ?_, ?_⟩
  · intro hle
    unfold truncateDescription
    rw [if_neg (not_lt.mpr hle)]
  · intro hgt
    refine ⟨?_, ?_⟩
    · unfold truncateDescription
      rw [if_pos hgt]
    · unfold truncateDescription
      rw [if_pos hgt]
      exact hlen hgt
  · intro h61
    unfold truncateDescription
    rw [if_pos (by omega)]
    exact hlen (by omega)

/-- Witness for C8: a concrete 61-character description truncates to its
first 57 characters plus "...", i.e. to 60 characters. -/
theorem truncateDescription_spec_witness :
    pyLen (String.mk (List.replicate 61 'a')) = 61 ∧
    pyLen (truncateDescription (String.mk (List.replicate 61 'a'))) = 60 :=
  ⟨by decide,
   (truncateDescription_spec (String.mk (List.replicate 61 'a'))).2.2
     (by decide)⟩

/-! ### String infrastructure for the renderer proofs -/

theorem data_append (a b : String) : (a ++ b).data = a.data ++ b.data := rfl

theorem strApp_assoc (a b c : String) : a ++ b ++ c = a ++ (b ++ c) := by
  cases a with | mk la =>
  cases b with | mk lb =>
  cases c with | mk lc =>
  exact String.ext (List.append_assoc la lb lc)

theorem strApp_empty (a : String) : a ++ "" = a := by
  cases a with | mk la => exact String.ext (List.append_nil la)



theorem ne_of_firstCharD (s t : String) (h : ¬firstCharD s = firstCharD t) :
    ¬s = t := fun he => h (he ▸ rfl)

theorem firstCharD_append (lit rest : String) (c : Char) (cs : List Char)
    (hl : lit.data = c :: cs) : firstCharD (lit ++ rest) = c := by
  unfold firstCharD
  rw [data_append, hl]
  rfl

/-- A string starting with a concrete non-`'#'` character is not the
`"## Components"` heading (nor any other `'#'`-heading). -/
theorem litPre_ne (lit rest t : String) (c : Char) (cs : List Char)
    (hl : lit.data = c :: cs) (d : Char) (ds : List Char)
    (htd : t.data = d :: ds) (hc : ¬c = d) : ¬(t = lit ++ rest) := by
  intro he
  have h1 : firstCharD (lit ++ rest) = c := firstCharD_append lit rest c cs hl
  have h2 : firstCharD t = d := by unfold firstCharD; rw [htd]; rfl
  rw [← he, h2] at h1
  exact hc h1.symm

theorem pyJoin_head (sep x : String) (xs : List String) :
    ∃ r : String, pyJoin sep (x :: xs) = x ++ r := by
  cases xs with
  | nil => exact ⟨"", (strApp_empty x).symm⟩
  | cons y ys => exact ⟨sep ++ pyJoin sep (y :: ys), strApp_assoc _ _ _⟩

theorem mem_infix_pyJoin (sep : String) (l : List String) (x : String)
    (hx : x ∈ l) : x.data <:+: (pyJoin sep l).data := by
  induction l with
  | nil => cases hx
  | cons y ys ih =>
    rcases List.mem_cons.mp hx with rfl | hys
    · obtain ⟨r, hr⟩ := pyJoin_head sep x ys
      rw [hr, data_append]
      exact ⟨[], r.data, by simp⟩
    · cases ys with
      | nil => cases hys
      | cons z zs =>
        have hrec : x.data <:+: (pyJoin sep (z :: zs)).data := ih hys
        obtain ⟨u, v, huv⟩ := hrec
        refine ⟨y.data ++ sep.data ++ u, v, ?_⟩
        rw [show pyJoin sep (y :: z :: zs) = y ++ sep ++ pyJoin sep (z :: zs)
          from rfl]
        rw [data_append, data_append, ← huv]
        simp [List.append_assoc]

theorem prefixOfB_eq_true (l1 l2 : List Char) (h : l1 <+: l2) :
    prefixOfB l1 l2 = true := by
  induction l1 generalizing l2 with
  | nil => rfl
  | cons a as ih =>
    obtain ⟨t, ht⟩ := h
    cases l2 with
    | nil => exact absurd ht (by simp)
    | cons b bs =>
      have hab : a = b := by
        have := congrArg (fun l => l.headD ' ') ht
        simpa using this
      have hrest : as ++ t = bs := by
        have := congrArg List.tail ht
        simpa using this
      subst hab
      unfold prefixOfB
      rw [ih bs ⟨t, hrest⟩]
      simp

theorem containsSub_append (u sub v : List Char) :
    containsSub (u ++ (sub ++ v)) sub = true := by
  induction u with
  | nil =>
    rw [List.nil_append]
    cases hs : sub ++ v with
    | nil =>
      have hsub : sub = [] := by
        cases sub with
        | nil => rfl
        | cons a t => exact absurd hs (by simp)
      subst hsub
      rfl
    | cons c t =>
      unfold containsSub
      rw [prefixOfB_eq_true sub (c :: t) ⟨v, hs⟩]
      simp
  | cons a u' ih =>
    rw [List.cons_append]
    unfold containsSub
    rw [ih]
    simp

theorem pyContains_of_infix (s sub : String) (h : sub.data <:+: s.data) :
    pyContains s sub = true := by
  obtain ⟨u, v, huv⟩ := h
  unfold pyContains
  rw [← huv, List.append_assoc]
  exact containsSub_append u sub.data v

theorem pyStartsWith_of_split (s pre r : String) (h : s = pre ++ r) :
    pyStartsWith s pre = true := by
  subst h
  unfold pyStartsWith
  rw [data_append]
  exact prefixOfB_eq_true _ _ ⟨r.data, rfl⟩

theorem pyContains_pyJoin_of_mem (sep : String) (l : List String)
    (x sub : String) (hx : x ∈ l) (hp : sub.data <:+: x.data) :
    pyContains (pyJoin sep l) sub = true :=
  pyContains_of_infix _ _ (hp.trans (mem_infix_pyJoin sep l x hx))

theorem infix_of_lit_split (sub lit rest : String)
    (h : sub.data <+: lit.data) : sub.data <:+: (lit ++ rest).data := by
  obtain ⟨t, ht⟩ := h
  refine ⟨[], t ++ rest.data, ?_⟩
  rw [data_append, ← ht]
  simp [List.append_assoc]

theorem isPrefix_of_prefixOfB (l1 l2 : List Char)
    (h : prefixOfB l1 l2 = true) : l1 <+: l2 := by
  induction l1 generalizing l2 with
  | nil => exact ⟨l2, rfl⟩
  | cons a as ih =>
    cases l2 with
    | nil => exact absurd h (by simp [prefixOfB])
    | cons b bs =>
      unfold prefixOfB at h
      rcases (Bool.and_eq_true _ _).mp h with ⟨hab, hrest⟩
      obtain ⟨t, ht⟩ := ih bs hrest
      refine ⟨t, ?_⟩
      rw [List.cons_append, ht]
      rw [show a = b from by simpa using hab]

theorem pyJoin_startsWith_head (sep x : String) (xs : List String) :
    pyStartsWith (pyJoin sep (x :: xs)) x = true := by
  obtain ⟨r, hr⟩ := pyJoin_head sep x xs
  exact pyStartsWith_of_split _ _ _ hr

/-- The rendered lines of an entry page, chunk by chunk. -/
theorem generate_plugin_page_lines_eq (p : ProcessedPlugin) (ts : String) :
    generate_plugin_page_lines p ts =
      pageHeader (p.name.getD "Unknown Plugin")
          (p.description.getD "No description available.")
          (p.version.getD "N/A") (p.license.getD "MIT")
          (p.category.getD "automation") ++
        pageComponents (build_component_badges p) ++
        pageInstall (p.name.getD "Unknown Plugin") (pluginRepo p) ++
        build_commands_section p ++
        pageRequirements (p.name.getD "Unknown Plugin")
          (p.description.getD "No description available.") ++
        pageTags ((p.tags.getD [] ++ p.keywords.getD []).dedup) ++
        build_links_section
          (if !(pluginRepo p).data.isEmpty then
            "https://github.com/" ++ pluginRepo p else "")
          (extract_author_info p).1 (extract_author_info p).2 ++
        pageFooter ts := rfl

/-- Claim C9: every freshly rendered entry page passes all four validator
checks, so validating it returns the empty warning list. -/
theorem generate_plugin_page_validates (p : ProcessedPlugin)
    (ts : String) :
    validate_generated_markdown (generate_plugin_page p ts) = [] := by
  have hmem_inst :
      "## Installation" ∈ generate_plugin_page_lines p ts := by
    rw [generate_plugin_page_lines_eq]
    refine List.mem_append_left _ (List.mem_append_left _
      (List.mem_append_left _ (List.mem_append_left _
        (List.mem_append_left _ (List.mem_append_right _ ?_)))))
    exact List.mem_cons_self _ _
  have hmem_links :
      "## Links" ∈ generate_plugin_page_lines p ts := by
    rw [generate_plugin_page_lines_eq]
    refine List.mem_append_left _ (List.mem_append_right _ ?_)
    unfold build_links_section
    exact List.mem_append_left _ (List.mem_append_left _
      (List.mem_cons_self _ _))
  have hmem_badge :
      ("![Version](https://img.shields.io/badge/version-" ++
        (p.version.getD "N/A" ++ "-blue)")) ∈
        generate_plugin_page_lines p ts := by
    rw [generate_plugin_page_lines_eq]
    refine List.mem_append_left _ (List.mem_append_left _
      (List.mem_append_left _ (List.mem_append_left _
        (List.mem_append_left _ (List.mem_append_left _
          (List.mem_append_left _ ?_))))))
    unfold pageHeader
    exact List.mem_cons_of_mem _ (List.mem_cons_of_mem _
      (List.mem_cons_of_mem _ (List.mem_cons_of_mem _
        (List.mem_cons_of_mem _ (List.mem_cons_self _ _)))))
  have hhead : ∃ tl, generate_plugin_page_lines p ts = "---" :: tl := by
    rw [generate_plugin_page_lines_eq]
    exact ⟨_, rfl⟩
  have h1 : pyContains (generate_plugin_page p ts) "## Installation" = true :=
    pyContains_pyJoin_of_mem "\n" _ _ _ hmem_inst (List.infix_refl _)
  have h2 : pyContains (generate_plugin_page p ts) "## Links" = true :=
    pyContains_pyJoin_of_mem "\n" _ _ _ hmem_links (List.infix_refl _)
  have h3 : pyContains (generate_plugin_page p ts) "![Version]" = true := by
    refine pyContains_pyJoin_of_mem "\n" _ _ _ hmem_badge ?_
    exact infix_of_lit_split "![Version]"
      "![Version](https://img.shields.io/badge/version-"
      (p.version.getD "N/A" ++ "-blue)")
      (isPrefix_of_prefixOfB _ _ (by decide))
  have h4 : pyStartsWith (generate_plugin_page p ts) "---" = true := by
    obtain ⟨tl, htl⟩ := hhead
    unfold generate_plugin_page
    rw [htl]
    exact pyJoin_startsWith_head "\n" "---" tl
  simp [validate_generated_markdown, requiredSections, h1, h2, h3, h4]

/-! ### Components section (C7) -/

theorem comp_notin_pageHeader (n d v lt c : String) :
    "## Components" ∉ pageHeader n d v lt c := by
  intro hmem
  simp only [pageHeader, List.mem_cons, List.not_mem_nil, or_false] at hmem
  rcases hmem with he | he | he | he | he | he | he | he | he | he | he
  · exact absurd he (by decide)
  · exact litPre_ne "title: " n "## Components" 't' _ rfl '#' _ rfl
      (by decide) he
  · exact litPre_ne "description: " d "## Components" 'd' _ rfl '#' _ rfl
      (by decide) he
  · exact absurd he (by decide)
  · exact absurd he (by decide)
  · exact litPre_ne "![Version](https://img.shields.io/badge/version-"
      (v ++ "-blue)") "## Components" '!' _ rfl '#' _ rfl (by decide) he
  · exact litPre_ne "![License](https://img.shields.io/badge/license-"
      (lt ++ "-green)") "## Components" '!' _ rfl '#' _ rfl (by decide) he
  · exact litPre_ne "![Category](https://img.shields.io/badge/category-"
      (c ++ "-orange)") "## Components" '!' _ rfl '#' _ rfl (by decide) he
  · exact absurd he (by decide)
  · exact litPre_ne "> " d "## Components" '>' _ rfl '#' _ rfl (by decide) he
  · exact absurd he (by decide)

theorem comp_notin_pageInstall (n r : String) :
    "## Components" ∉ pageInstall n r := by
  intro hmem
  simp only [pageInstall, List.mem_cons, List.not_mem_nil, or_false] at hmem
  rcases hmem with he | he | he | he | he | he | he | he | he | he | he |
    he | he | he
  · exact absurd he (by decide)
  · exact absurd he (by decide)
  · exact absurd he (by decide)
  · exact absurd he (by decide)
  · exact absurd he (by decide)
  · exact litPre_ne "/plugin install " n "## Components" '/' _ rfl
      '#' _ rfl (by decide) he
  · exact absurd he (by decide)
  · exact absurd he (by decide)
  · exact absurd he (by decide)
  · exact absurd he (by decide)
  · exact absurd he (by decide)
  · exact litPre_ne "/plugin install " r "## Components" '/' _ rfl
      '#' _ rfl (by decide) he
  · exact absurd he (by decide)
  · exact absurd he (by decide)

theorem comp_notin_commands (p : ProcessedPlugin) :
    "## Components" ∉ build_commands_section p := by
  intro hmem
  unfold build_commands_section at hmem
  cases hc : p.commands with
  | none => rw [hc] at hmem; simp at hmem
  | some cv =>
    rw [hc] at hmem
    cases cv with
    | str s => simp at hmem
    | list cs =>
      by_cases hcs : cs.isEmpty = true
      · simp [hcs] at hmem
      · have hcs' : cs.isEmpty = false := by simpa using hcs
        simp [hcs'] at hmem
        obtain ⟨cmd, hcm, he⟩ := hmem
        exact litPre_ne "| `" (cmd ++ "` | See documentation |")
          "## Components" '|' _ rfl '#' _ rfl (by decide) he.symm

theorem comp_notin_pageRequirements (n d : String) :
    "## Components" ∉ pageRequirements n d := by
  intro hmem
  unfold pageRequirements at hmem
  by_cases hb : (pyContains (pyLower n) "chrome" ||
      pyContains (pyLower d) "browser") = true
  · rw [hb] at hmem
    simp at hmem
  · have hb' : (pyContains (pyLower n) "chrome" ||
        pyContains (pyLower d) "browser") = false := by simpa using hb
    rw [hb'] at hmem
    simp at hmem

theorem comp_notin_pageTags (tags : List String) :
    "## Components" ∉ pageTags tags := by
  intro hmem
  unfold pageTags at hmem
  by_cases ht : tags.isEmpty = true
  · rw [ht] at hmem
    simp at hmem
  · have ht' : tags.isEmpty = false := by simpa using ht
    rw [ht'] at hmem
    simp only [Bool.not_false, if_true, List.mem_cons, List.not_mem_nil,
      or_false] at hmem
    rcases hmem with he | he | he | he
    · exact absurd he (by decide)
    · exact absurd he (by decide)
    · cases hs : pySorted tags with
      | nil =>
        have hperm := List.perm_insertionSort
          (fun a b => pyStrLeB a.data b.data = true) tags
        unfold pySorted at hs
        rw [hs] at hperm
        have hlen := hperm.length_eq
        cases htg : tags with
        | nil => rw [htg] at ht'; exact absurd ht' (by simp)
        | cons a t => rw [htg] at hlen; simp at hlen
      | cons x xs =>
        rw [hs, List.map_cons] at he
        obtain ⟨r, hr⟩ := pyJoin_head " " ("`" ++ (x ++ "`"))
          (xs.map (fun tag => "`" ++ (tag ++ "`")))
        rw [hr, strApp_assoc] at he
        exact litPre_ne "`" (x ++ "`" ++ r) "## Components" '`' _ rfl
          '#' _ rfl (by decide) he
    · exact absurd he (by decide)

theorem comp_notin_links (ru an au : String) :
    "## Components" ∉ build_links_section ru an au := by
  intro hmem
  unfold build_links_section at hmem
  rcases List.mem_append.mp hmem with h | h
  · rcases List.mem_append.mp h with h2 | h2
    · simp at h2
    · by_cases hru : ru.data.isEmpty = true
      · rw [hru] at h2; simp at h2
      · have hru' : ru.data.isEmpty = false := by simpa using hru
        rw [hru'] at h2
        simp only [Bool.not_false, if_true, List.mem_cons,
          List.not_mem_nil, or_false] at h2
        exact litPre_ne "- :material-github: [Source Repository]("
          (ru ++ ")") "## Components" '-' _ rfl '#' _ rfl (by decide) h2
  · by_cases hau : au.data.isEmpty = true
    · rw [hau] at h
      simp only [Bool.not_true, Bool.false_eq_true, if_false] at h
      by_cases han : (!an.data.isEmpty && an != "Unknown") = true
      · rw [han] at h
        simp only [if_true, List.mem_cons, List.not_mem_nil, or_false] at h
        exact litPre_ne "- :material-account: Author: " an
          "## Components" '-' _ rfl '#' _ rfl (by decide) h
      · have han' : (!an.data.isEmpty && an != "Unknown") = false := by
          simpa using han
        rw [han'] at h
        simp at h
    · have hau' : au.data.isEmpty = false := by simpa using hau
      rw [hau'] at h
      simp only [Bool.not_false, if_true, List.mem_cons,
        List.not_mem_nil, or_false] at h
      exact litPre_ne "- :material-account: [Author: "
        (an ++ ("](" ++ (au ++ ")"))) "## Components" '-' _ rfl '#' _ rfl
        (by decide) h

theorem comp_notin_pageFooter (ts : String) :
    "## Components" ∉ pageFooter ts := by
  intro hmem
  simp only [pageFooter, List.mem_cons, List.not_mem_nil, or_false] at hmem
  rcases hmem with he | he | he | he
  · exact absurd he (by decide)
  · exact absurd he (by decide)
  · exact absurd he (by decide)
  · exact litPre_ne "*Last generated: " (ts ++ "*") "## Components"
      '*' _ rfl '#' _ rfl (by decide) he

/-- Claim C7: the rendered entry page has a `"## Components"` section
line exactly when one of the four component indicators (commands, skills,
agents, mcpServers) is present on the record — mere presence, regardless
of content, and hooks does not count — and when present the section is
the fixed chunk whose badge line joins the fixed per-indicator badges
with `" | "` in the fixed order. -/
theorem components_section_iff (p : ProcessedPlugin) (ts : String) :
    ("## Components" ∈ generate_plugin_page_lines p ts ↔
      (p.commands.isSome = true ∨ p.skills.isSome = true ∨
        p.agents.isSome = true ∨ p.mcpServers.isSome = true)) ∧
    (¬build_component_badges p = [] →
      ["## Components", "", pyJoin " | " (build_component_badges p), ""]
        <:+: generate_plugin_page_lines p ts) := by
  constructor
  · constructor
    · intro hmem
      by_contra hnone
      have h1 : p.commands = none := by
        cases hc : p.commands with
        | none => rfl
        | some v => exact absurd (Or.inl (by rw [hc]; rfl)) hnone
      have h2 : p.skills = none := by
        cases hs : p.skills with
        | none => rfl
        | some v => exact absurd (Or.inr (Or.inl (by rw [hs]; rfl))) hnone
      have h3 : p.agents = none := by
        cases ha : p.agents with
        | none => rfl
        | some v =>
          exact absurd (Or.inr (Or.inr (Or.inl (by rw [ha]; rfl)))) hnone
      have h4 : p.mcpServers = none := by
        cases hm : p.mcpServers with
        | none => rfl
        | some v =>
          exact absurd (Or.inr (Or.inr (Or.inr (by rw [hm]; rfl)))) hnone
      have hbn : build_component_badges p = [] := by
        simp [build_component_badges, h1, h2, h3, h4]
      rw [generate_plugin_page_lines_eq] at hmem
      rw [show pageComponents (build_component_badges p) = [] from by
        rw [hbn]; rfl] at hmem
      rw [List.append_nil] at hmem
      rcases List.mem_append.mp hmem with h | h
      · rcases List.mem_append.mp h with h | h
        · rcases List.mem_append.mp h with h | h
          · rcases List.mem_append.mp h with h | h
            · rcases List.mem_append.mp h with h | h
              · rcases List.mem_append.mp h with h | h
                · exact comp_notin_pageHeader _ _ _ _ _ h
                · exact comp_notin_pageInstall _ _ h
              · exact comp_notin_commands _ h
            · exact comp_notin_pageRequirements _ _ h
          · exact comp_notin_pageTags _ h
        · exact comp_notin_links _ _ _ h
      · exact comp_notin_pageFooter _ h
    · intro hpres
      have hb : ¬build_component_badges p = [] := by
        rcases hpres with h | h | h | h <;>
          simp [build_component_badges, h, List.append_eq_nil]
      cases hbs : build_component_badges p with
      | nil => exact absurd hbs hb
      | cons x xs =>
        have hcm : "## Components" ∈ pageComponents (build_component_badges p) := by
          unfold pageComponents
          rw [hbs]
          exact List.mem_cons_self _ _
        rw [generate_plugin_page_lines_eq]
        exact List.mem_append_left _ (List.mem_append_left _
          (List.mem_append_left _ (List.mem_append_left _
            (List.mem_append_left _ (List.mem_append_left _
              (List.mem_append_right _ hcm))))))
  · intro hb
    cases hbs : build_component_badges p with
    | nil => exact absurd hbs hb
    | cons x xs =>
      rw [generate_plugin_page_lines_eq, hbs]
      rw [show pageComponents (x :: xs) =
        ["## Components", "", pyJoin " | " (x :: xs), ""] from rfl]
      refine ⟨pageHeader (p.name.getD "Unknown Plugin")
          (p.description.getD "No description available.")
          (p.version.getD "N/A") (p.license.getD "MIT")
          (p.category.getD "automation"),
        pageInstall (p.name.getD "Unknown Plugin") (pluginRepo p) ++
          build_commands_section p ++
          pageRequirements (p.name.getD "Unknown Plugin")
            (p.description.getD "No description available.") ++
          pageTags ((p.tags.getD [] ++ p.keywords.getD []).dedup) ++
          build_links_section
            (if !(pluginRepo p).data.isEmpty then
              "https://github.com/" ++ pluginRepo p else "")
            (extract_author_info p).1 (extract_author_info p).2 ++
          pageFooter ts, ?_⟩
      simp [List.append_assoc]

/-- Witness for C7 at a record whose only indicators are `commands` and
the non-indicator `hooks`: the section chunk occurs in the page lines. -/
theorem components_section_iff_witness :
    ["## Components", "",
      pyJoin " | " (build_component_badges
        { commands := some (CommandsVal.list ["x"]),
          hooks := some "h" }), ""] <:+:
      generate_plugin_page_lines
        { commands := some (CommandsVal.list ["x"]), hooks := some "h" }
        "TS" :=
  (components_section_iff
    { commands := some (CommandsVal.list ["x"]), hooks := some "h" }
    "TS").2 (by decide)

/-! ### Frame property of the imperative merger (C10) -/



theorem ev_refl (m : Nat) (h : Heap) : Ev m h h :=
  ⟨le_refl _, fun _ _ _ => rfl⟩

theorem ev_trans (m : Nat) (h1 h2 h3 : Heap) (e12 : Ev m h1 h2)
    (e23 : Ev m h2 h3) : Ev m h1 h3 :=
  ⟨e12.1.trans e23.1, fun a ha hm =>
    (e23.2 a (lt_of_lt_of_le ha e12.1) hm).trans (e12.2 a ha hm)⟩

theorem ev_halloc (m : Nat) (h : Heap) (d : DictV) :
    Ev m h (halloc h d).2 := by
  constructor
  · unfold halloc
    simp
  · intro a ha hm
    unfold halloc
    simp only []
    rw [List.getElem?_append]
    rw [if_pos ha]

theorem ev_hwrite (m : Nat) (h : Heap) (k : String) (v : Val) :
    Ev m h (hwrite h m k v) := by
  constructor
  · unfold hwrite
    simp
  · intro a ha hm
    unfold hwrite
    exact List.getElem?_set_ne (fun he => hm he.symm)

theorem ev_foldl (m : Nat) (g : Heap → String → Heap) (l : List String)
    (hg : ∀ h f, Ev m h (g h f)) :
    ∀ h : Heap, Ev m h (l.foldl g h) := by
  induction l with
  | nil => intro h; exact ev_refl m h
  | cons x xs ih =>
    intro h
    rw [List.foldl_cons]
    exact ev_trans m h (g h x) _ (hg h x) (ih (g h x))

theorem ev_mergeAuthorInfoImp (m : Nat) (h : Heap) (ex : Option Val)
    (na v : Val) (h' : Heap)
    (hok : mergeAuthorInfoImp h ex na = .ok (v, h')) : Ev m h h' := by
  unfold mergeAuthorInfoImp at hok
  cases na with
  | vstr s =>
    simp only [halloc] at hok
    cases ex with
    | some ev =>
      cases ev with
      | dref ea =>
        simp only [] at hok
        cases hok
        exact ev_trans m h _ _ (ev_halloc m h [("name", .vstr s)])
          (ev_halloc m _ _)
      | vnull => cases hok; exact ev_halloc m h _
      | vbool b => cases hok; exact ev_halloc m h _
      | vnum n => cases hok; exact ev_halloc m h _
      | vstr s2 => cases hok; exact ev_halloc m h _
      | vlist l => cases hok; exact ev_halloc m h _
    | none => cases hok; exact ev_halloc m h _
  | dref naA =>
    cases ex with
    | some ev =>
      cases ev with
      | dref ea =>
        simp only [halloc] at hok
        cases hok
        exact ev_halloc m h _
      | vnull => cases hok; exact ev_refl m h
      | vbool b => cases hok; exact ev_refl m h
      | vnum n => cases hok; exact ev_refl m h
      | vstr s2 => cases hok; exact ev_refl m h
      | vlist l => cases hok; exact ev_refl m h
    | none => cases hok; exact ev_refl m h
  | vnull =>
    cases ex with
    | some ev =>
      cases ev with
      | dref ea => exact Except.noConfusion hok
      | vnull => cases hok; exact ev_refl m h
      | vbool b => cases hok; exact ev_refl m h
      | vnum n => cases hok; exact ev_refl m h
      | vstr s2 => cases hok; exact ev_refl m h
      | vlist l => cases hok; exact ev_refl m h
    | none => cases hok; exact ev_refl m h
  | vbool b =>
    cases ex with
    | some ev =>
      cases ev with
      | dref ea => exact Except.noConfusion hok
      | vnull => cases hok; exact ev_refl m h
      | vbool b2 => cases hok; exact ev_refl m h
      | vnum n => cases hok; exact ev_refl m h
      | vstr s2 => cases hok; exact ev_refl m h
      | vlist l => cases hok; exact ev_refl m h
    | none => cases hok; exact ev_refl m h
  | vnum n =>
    cases ex with
    | some ev =>
      cases ev with
      | dref ea => exact Except.noConfusion hok
      | vnull => cases hok; exact ev_refl m h
      | vbool b => cases hok; exact ev_refl m h
      | vnum n2 => cases hok; exact ev_refl m h
      | vstr s2 => cases hok; exact ev_refl m h
      | vlist l => cases hok; exact ev_refl m h
    | none => cases hok; exact ev_refl m h
  | vlist l =>
    cases ex with
    | some ev =>
      cases ev with
      | dref ea => exact Except.noConfusion hok
      | vnull => cases hok; exact ev_refl m h
      | vbool b => cases hok; exact ev_refl m h
      | vnum n => cases hok; exact ev_refl m h
      | vstr s2 => cases hok; exact ev_refl m h
      | vlist l2 => cases hok; exact ev_refl m h
    | none => cases hok; exact ev_refl m h

theorem ev_applyOverridableImp (h : Heap) (mAddr pjAddr : Nat) :
    Ev mAddr h (applyOverridableImp h mAddr pjAddr) := by
  apply ev_foldl
  intro h f
  cases hv : vget (hread h pjAddr) f with
  | none => simp only [hv]; exact ev_refl _ h
  | some v =>
    simp only [hv]
    by_cases ht : truthyV h v = true
    · rw [if_pos ht]
      exact ev_hwrite _ h f v
    · rw [if_neg ht]
      exact ev_refl _ h

theorem ev_applyComponentsImp (h : Heap) (mAddr pjAddr : Nat) :
    Ev mAddr h (applyComponentsImp h mAddr pjAddr) := by
  apply ev_foldl
  intro h c
  cases hv : vget (hread h pjAddr) c with
  | none => simp only [hv]; exact ev_refl _ h
  | some v =>
    simp only [hv]
    exact ev_hwrite _ h c v

theorem ev_applyAuthorImp (h : Heap) (mAddr pjAddr : Nat) (h' : Heap)
    (hok : applyAuthorImp h mAddr pjAddr = .ok h') : Ev mAddr h h' := by
  unfold applyAuthorImp at hok
  cases hv : vget (hread h pjAddr) "author" with
  | none =>
    rw [hv] at hok
    cases hok
    exact ev_refl _ h
  | some a =>
    rw [hv] at hok
    simp only [] at hok
    by_cases ht : truthyV h a = true
    · rw [if_pos ht] at hok
      cases hma : mergeAuthorInfoImp h (vget (hread h mAddr) "author") a with
      | ok vh =>
        rw [hma] at hok
        simp only [] at hok
        cases hok
        exact ev_trans _ h vh.2 _
          (ev_mergeAuthorInfoImp mAddr h _ a vh.1 vh.2 (by rw [hma]))
          (ev_hwrite _ vh.2 "author" vh.1)
      | error e =>
        rw [hma] at hok
        exact Except.noConfusion hok
    · rw [if_neg ht] at hok
      cases hok
      exact ev_refl _ h

theorem ev_applyPluginJsonFieldsImp (h : Heap) (mAddr pjAddr : Nat)
    (h' : Heap) (hok : applyPluginJsonFieldsImp h mAddr pjAddr = .ok h') :
    Ev mAddr h h' := by
  unfold applyPluginJsonFieldsImp at hok
  cases haa : applyAuthorImp (applyOverridableImp h mAddr pjAddr) mAddr
      pjAddr with
  | error e =>
    rw [haa] at hok
    exact Except.noConfusion hok
  | ok h2 =>
    rw [haa] at hok
    simp only [] at hok
    cases hok
    exact ev_trans _ h h2 _
      (ev_trans _ h _ h2 (ev_applyOverridableImp h mAddr pjAddr)
        (ev_applyAuthorImp _ mAddr pjAddr h2 haa))
      (ev_applyComponentsImp h2 mAddr pjAddr)

theorem ev_applyRepoInfoImp (h : Heap) (mAddr riAddr : Nat) :
    Ev mAddr h (applyRepoInfoImp h mAddr riAddr) := by
  unfold applyRepoInfoImp
  simp only []
  refine ev_trans _ h _ _ ?_ (ev_hwrite _ _ _ _)
  refine ev_trans _ h _ _ ?_ (ev_hwrite _ _ _ _)
  refine ev_trans _ h _ _ ?_ (ev_hwrite _ _ _ _)
  exact ev_hwrite _ _ _ _

theorem ev_pluginBranchImp (h : Heap) (mAddr : Nat) (pjAddr : Option Nat)
    (h' : Heap) (hok : pluginBranchImp h mAddr pjAddr = .ok h') :
    Ev mAddr h h' := by
  unfold pluginBranchImp at hok
  cases pjAddr with
  | none =>
    simp only [] at hok
    cases hok
    exact ev_refl _ h
  | some pa =>
    simp only [] at hok
    by_cases he : (hread h pa).isEmpty = true
    · rw [he] at hok
      simp only [Bool.not_true, Bool.false_eq_true, if_false] at hok
      cases hok
      exact ev_refl _ h
    · have he' : (hread h pa).isEmpty = false := by simpa using he
      rw [he'] at hok
      simp only [Bool.not_false, if_true] at hok
      exact ev_applyPluginJsonFieldsImp h mAddr pa h' hok

theorem ev_repoBranchImp (h : Heap) (mAddr : Nat) (riAddr : Option Nat) :
    Ev mAddr h (repoBranchImp h mAddr riAddr) := by
  unfold repoBranchImp
  cases riAddr with
  | none => exact ev_refl _ h
  | some ra =>
    simp only []
    by_cases he : (hread h ra).isEmpty = true
    · rw [he]
      simp only [Bool.not_true, Bool.false_eq_true, if_false]
      exact ev_refl _ h
    · have he' : (hread h ra).isEmpty = false := by simpa using he
      rw [he']
      simp only [Bool.not_false, if_true]
      exact ev_applyRepoInfoImp h mAddr ra

/-- Claim C10: the imperative `merge_metadata` never mutates any
pre-existing heap cell: the result is a freshly allocated shallow copy
(its address is the old heap length, so it is distinct from every
existing dict, the entry and its nested author record included), and
after the call every previously allocated cell — the entry, its
structured author record, the manifest, the repo info — holds exactly
its old association list. -/
theorem mergeMetadataImp_frame (h : Heap) (entryAddr : Nat)
    (pjAddr riAddr : Option Nat) (r : Nat) (h' : Heap)
    (hok : mergeMetadataImp h entryAddr pjAddr riAddr = .ok (r, h')) :
    r = h.length ∧ ∀ a, a < h.length → h'[a]? = h[a]? := by
  unfold mergeMetadataImp at hok
  simp only [halloc] at hok
  cases hpb : pluginBranchImp (h ++ [hread h entryAddr]) h.length pjAddr with
  | error e =>
    rw [hpb] at hok
    exact Except.noConfusion hok
  | ok h2 =>
    rw [hpb] at hok
    simp only [] at hok
    cases hok
    refine ⟨rfl, ?_⟩
    intro a ha
    have e1 : Ev h.length h (h ++ [hread h entryAddr]) :=
      ev_halloc h.length h (hread h entryAddr)
    have e2 : Ev h.length (h ++ [hread h entryAddr]) h2 :=
      ev_pluginBranchImp _ h.length pjAddr h2 hpb
    have e3 : Ev h.length h2 (repoBranchImp h2 h.length riAddr) :=
      ev_repoBranchImp h2 h.length riAddr
    have e := ev_trans _ h _ _ (ev_trans _ h _ _ e1 e2) e3
    exact e.2 a ha (by omega)

/-- Witness for C10: a concrete heap holding an entry (address 0) whose
author field references the dict at address 1, and a manifest (address 2)
with a string author; after the merge the result is the fresh address 3
and cells 0, 1, 2 are unchanged. -/
theorem mergeMetadataImp_frame_witness :
    (3 : Nat) = ([[("name", Val.vstr "p"), ("author", Val.dref 1)],
      [("name", Val.vstr "A")], [("author", Val.vstr "B")]] : Heap).length ∧
    ∀ a, a < ([[("name", Val.vstr "p"), ("author", Val.dref 1)],
      [("name", Val.vstr "A")], [("author", Val.vstr "B")]] : Heap).length →
      ([[("name", Val.vstr "p"), ("author", Val.dref 1)],
        [("name", Val.vstr "A")], [("author", Val.vstr "B")],
        [("name", Val.vstr "p"), ("author", Val.dref 5)],
        [("name", Val.vstr "B")], [("name", Val.vstr "B")]] : Heap)[a]? =
      ([[("name", Val.vstr "p"), ("author", Val.dref 1)],
        [("name", Val.vstr "A")], [("author", Val.vstr "B")]] : Heap)[a]? :=
  mergeMetadataImp_frame
    [[("name", Val.vstr "p"), ("author", Val.dref 1)],
      [("name", Val.vstr "A")], [("author", Val.vstr "B")]]
    0 (some 2) none 3
    [[("name", Val.vstr "p"), ("author", Val.dref 1)],
      [("name", Val.vstr "A")], [("author", Val.vstr "B")],
      [("name", Val.vstr "p"), ("author", Val.dref 5)],
      [("name", Val.vstr "B")], [("name", Val.vstr "B")]]
    rfl
